import Mathlib

/-!
# Verification of yt-dlp-ng core logic

Shallow embedding of the core logic of the `yt-dlp-ng` repository:
the signature transform engine (`src/extractors/youtube_signature.rs`),
the cipher-format URL resolution of the page extractor
(`src/extractors/youtube.rs`), the format selection and the retry /
resume logic of the transfer engine (`src/core/downloader.rs`), and the
filename sanitizer (`src/utils/mod.rs`).  Rust machine integers are
modelled as `Nat`/`Int`; fallible Rust functions returning
`anyhow::Result` are modelled with `Except String`.  The JavaScript
interpreter (`rquickjs`) is external code; its outcome is passed in as
an explicit oracle function where the embedded code consumes it.
-/

set_option autoImplicit false

namespace YtDlpNg

/-! ## Transform engine (`src/extractors/youtube_signature.rs`)

`TransformOp` mirrors the Rust enum `TransformOp { Reverse, Splice(usize),
Swap(usize) }`.  `applyOp` is one iteration of the fallback loop in
`decrypt_signature` (lines 61-81): `Reverse` reverses the character
vector, `Splice(i)` removes index `i` when `i < len`, `Swap(i)` swaps
positions `0` and `i` when `i < len`; out-of-range indices leave the
vector unchanged (the `if index < sig_chars.len()` guards). -/

inductive TransformOp where
  | Reverse : TransformOp
  | Splice : Nat → TransformOp
  | Swap : Nat → TransformOp
  deriving DecidableEq, Repr

def applyOp (op : TransformOp) (chars : List Char) : List Char :=
  match op with
  | .Reverse => chars.reverse
  | .Splice index => if index < chars.length then chars.eraseIdx index else chars
  | .Swap index =>
      -- `sig_chars.swap(0, index)`: the guard `index < len` makes both
      -- positions valid, so the `getD` defaults are never used.
      if index < chars.length then
        (chars.set 0 (chars.getD index ' ')).set index (chars.getD 0 ' ')
      else chars

/-- The application loop of `decrypt_signature` (lines 61-81): collect the
characters, fold the operation list over them, join the result. -/
def applySignatureOps (signature : String) (operations : List TransformOp) : String :=
  ⟨operations.foldl (fun sigChars op => applyOp op sigChars) signature.data⟩

/-- The fixed default operation sequence used by
`extract_transform_operations` when every lookup step fails
(lines 232-239 and 272-278). -/
def fallbackOperations : List TransformOp :=
  [.Reverse, .Splice 1, .Swap 39]

/-! ## Filename sanitizer (`src/utils/mod.rs`) -/

/-- Rust `char::is_control`: Unicode general category `Cc`,
i.e. `U+0000..U+001F` and `U+007F..U+009F`. -/
def isControlChar (c : Char) : Bool :=
  c.toNat ≤ 0x1f || (0x7f ≤ c.toNat && c.toNat ≤ 0x9f)

/-- The per-character mapping of `sanitize_filename` (lines 3-14):
`< > : " | ? *` become `_`, path separators become `-`, control
characters become `_`, everything else is unchanged. -/
def sanChar (c : Char) : Char :=
  if c = '<' ∨ c = '>' ∨ c = ':' ∨ c = '"' ∨ c = '|' ∨ c = '?' ∨ c = '*' then '_'
  else if c = '/' ∨ c = '\\' then '-'
  else if isControlChar c then '_'
  else c

def sanitize_filename (filename : String) : String :=
  ⟨filename.data.map sanChar⟩

/-! ## Data model (`src/core/metadata.rs`)

`VideoFormat` mirrors the Rust struct field by field.  The Rust `f64`
fields (`fps`, `tbr`, `vbr`, `abr`) are modelled as `Option Int`: the
only place the downloader consumes `tbr` is `f.tbr.unwrap_or(0.0) as
i32`, a truncation to a machine integer, so the model carries the
truncated integer value directly. -/

structure VideoFormat where
  format_id : String
  url : String
  quality : Option String
  resolution : Option String
  fps : Option Int
  vcodec : Option String
  acodec : Option String
  ext : String
  filesize : Option Nat
  tbr : Option Int
  vbr : Option Int
  abr : Option Int
  deriving DecidableEq, Repr

structure Thumbnail where
  url : String
  width : Option Nat
  height : Option Nat
  resolution : Option String
  deriving DecidableEq, Repr

structure VideoMetadata where
  id : String
  title : String
  description : Option String
  duration : Option Nat
  uploader : Option String
  upload_date : Option String
  view_count : Option Nat
  like_count : Option Nat
  formats : List VideoFormat
  thumbnails : List Thumbnail
  deriving DecidableEq, Repr

/-! ## Format selection (`src/core/downloader.rs`, `select_best_format`) -/

/-- The score inside `max_by_key` (lines 49-56): container priority
(`mp4` ↦ 1000, `webm` ↦ 500, other ↦ 0) plus the truncated bitrate
`f.tbr.unwrap_or(0.0) as i32`. -/
def formatScore (f : VideoFormat) : Int :=
  (if f.ext = "mp4" then 1000 else if f.ext = "webm" then 500 else 0) + f.tbr.getD 0

/-- Rust `Iterator::max_by_key`: `None` on an empty iterator; otherwise
the maximal element, and when several elements are equally maximal the
LAST one is returned (the fold replaces the accumulator on `≥`). -/
def maxByKeyLast (key : VideoFormat → Int) : List VideoFormat → Option VideoFormat
  | [] => none
  | x :: xs => some (xs.foldl (fun acc y => if key acc ≤ key y then y else acc) x)

/-- The `filter` stage of `select_best_format` (line 48): keep only
descriptors carrying both codec tags. -/
def eligibleFormats (formats : List VideoFormat) : List VideoFormat :=
  formats.filter (fun f => f.vcodec.isSome && f.acodec.isSome)

def select_best_format (formats : List VideoFormat) : Except String VideoFormat :=
  match maxByKeyLast formatScore (eligibleFormats formats) with
  | some f => .ok f
  | none => .error "No suitable format found"

/-! ## Transfer retry loop (`src/core/downloader.rs`, `download_format`,
lines 76-135)

Each attempt of the loop either fails at the network level
(`request.send()` returns `Err`) or yields an HTTP status code; the
outcome of attempt number `n` (1-based, as in the source where
`attempt` is incremented at the top of the loop) is supplied by an
oracle `f : Nat → AttemptOutcome`.  The model records the backoff waits
(`2^attempt` seconds) performed before reaching the final outcome. -/

inductive AttemptOutcome where
  | netErr : AttemptOutcome
  | status : Nat → AttemptOutcome
  deriving DecidableEq, Repr

inductive DlResult where
  /-- a success status was reached; the transfer proceeds to
  `perform_download` after the recorded backoff waits -/
  | success : List Nat → DlResult
  /-- `anyhow::bail!("Failed to download after {} attempts: HTTP {}")` -/
  | httpFailure : Nat → Nat → DlResult
  /-- a send error propagated after the retry ceiling -/
  | netFailure : Nat → DlResult
  deriving DecidableEq, Repr

def MAX_RETRIES : Nat := 3

/-- `status.is_success() || status.as_u16() == 206` (line 123). -/
def isSuccessStatus (s : Nat) : Bool :=
  (200 ≤ s && s < 300) || s == 206

def downloadLoop (f : Nat → AttemptOutcome) (attempt : Nat) (waits : List Nat) : DlResult :=
  match f attempt with
  | .netErr =>
      if MAX_RETRIES ≤ attempt then .netFailure attempt
      else downloadLoop f (attempt + 1) (waits ++ [2 ^ attempt])
  | .status s =>
      if isSuccessStatus s then .success waits
      else if s == 403 && attempt < MAX_RETRIES then
        downloadLoop f (attempt + 1) (waits ++ [2 ^ attempt])
      else .httpFailure attempt s
termination_by MAX_RETRIES - attempt
decreasing_by
  · simp only [MAX_RETRIES] at *; omega
  · simp only [MAX_RETRIES] at *
    rename_i h
    simp at h
    omega

/-- The retry loop starts with `attempt = 0` and increments at the top
of the loop body, so the first attempt is number 1. -/
def downloadRun (f : Nat → AttemptOutcome) : DlResult :=
  downloadLoop f 1 []

/-! ## Resume logic (`src/core/downloader.rs`, `download_format` lines
61-74 and 105-107, `perform_download` lines 138-162) -/

/-- `resume_from`: the current size of an existing target file, `None`
when the path does not exist. -/
def resumeOffset (pathExists : Bool) (size : Nat) : Option Nat :=
  if pathExists then some size else none

structure DownloadRequest where
  headers : List (String × String)
  range : Option String
  deriving DecidableEq, Repr

/-- The request-building section (lines 84-107): the fixed
anti-detection header set, plus a `Range: bytes={offset}-` header
exactly when resuming. -/
def buildRequest (resumeFrom : Option Nat) : DownloadRequest :=
  { headers :=
      [("Accept", "*/*"), ("Accept-Language", "en-US,en;q=0.9"),
       ("Accept-Encoding", "gzip, deflate, br"), ("Cache-Control", "no-cache"),
       ("Connection", "keep-alive"), ("Pragma", "no-cache"),
       ("Referer", "https://www.youtube.com/"), ("Origin", "https://www.youtube.com"),
       ("Sec-Fetch-Dest", "video"), ("Sec-Fetch-Mode", "no-cors"),
       ("Sec-Fetch-Site", "cross-site"),
       ("Sec-Ch-Ua", "\"Not_A Brand\";v=\"8\", \"Chromium\";v=\"120\", \"Google Chrome\";v=\"120\""),
       ("Sec-Ch-Ua-Mobile", "?0"), ("Sec-Ch-Ua-Platform", "\"Windows\""),
       ("Upgrade-Insecure-Requests", "1"), ("X-Client-Data", "CgSLywE="),
       ("X-Youtube-Client-Name", "1"), ("X-Youtube-Client-Version", "2.20231201.00.00")],
    range := resumeFrom.map (fun n => "bytes=" ++ toString n ++ "-") }

inductive FileMode where
  /-- `File::create`: create or truncate -/
  | createTruncate : FileMode
  /-- `OpenOptions::new().create(true).append(true)` followed by a seek
  to the end -/
  | appendSeekEnd : FileMode
  deriving DecidableEq, Repr

structure DownloadSetup where
  mode : FileMode
  startCount : Nat
  expectedTotal : Option Nat
  deriving DecidableEq, Repr

/-- The head of `perform_download` (lines 138-162): initial byte count
`resume_from.unwrap_or(0)`, append mode exactly when resuming, and the
expected total `total_size.map(|size| size + partial_size)` when
resuming (`content_length` of the range response is the remaining byte
count). -/
def performDownloadSetup (resumeFrom : Option Nat) (contentLength : Option Nat) :
    DownloadSetup :=
  { mode := if resumeFrom.isSome then .appendSeekEnd else .createTruncate,
    startCount := resumeFrom.getD 0,
    expectedTotal :=
      match resumeFrom with
      | some partialSize => contentLength.map (fun size => size + partialSize)
      | none => contentLength }

/-! ## Cipher-format processing (`src/extractors/youtube.rs`)

`CipherParams` is the decoded query-string mapping produced by
`parse_query_string` from a `signatureCipher`/`cipher` field; the
extractor only ever reads the keys `url`, `s`, `sp` and `n`, so the
model carries exactly those.  The two decryption calls
(`SignatureDecrypter::decrypt_signature` and `decrypt_nsig`) execute
regex searches and, possibly, external JavaScript; their outcomes are
supplied as oracle functions `decryptSig` / `decryptNsig` from the
token to an `anyhow::Result<String>`. -/

structure CipherParams where
  url : Option String
  s : Option String
  sp : Option String
  n : Option String
  deriving DecidableEq, Repr

/-- `process_cipher_format` (lines 137-198), for a format whose cipher
field is present and already decoded into `params`.  Returns
`Ok(Some(final_url))` / `Ok(None)`; note that every branch of the
source returns `Ok`. -/
def process_cipher_format (decryptSig decryptNsig : String → Except String String)
    (params : CipherParams) : Except String (Option String) :=
  match params.url, params.s with
  | some url, some signature =>
      match decryptSig signature with
      | .ok decryptedSig =>
          let sp := params.sp.getD "signature"
          let baseUrl := url ++ "&" ++ sp ++ "=" ++ decryptedSig
          let finalUrl :=
            match params.n with
            | some nParam =>
                match decryptNsig nParam with
                | .ok decryptedNsig => baseUrl ++ "&n=" ++ decryptedNsig
                | .error _ => baseUrl ++ "&n=" ++ nParam
            | none => baseUrl
          .ok (some finalUrl)
      | .error _ =>
          let sp := params.sp.getD "signature"
          .ok (some (url ++ "&" ++ sp ++ "=" ++ signature))
  | some url, none => .ok (some url)
  | none, _ => .ok none

/-- Split a character list at the FIRST occurrence of `sep`, as a URL
parser splits path from query at the first `?`; `none` when `sep` does
not occur. -/
def splitFirst (sep : Char) : List Char → Option (List Char × List Char)
  | [] => none
  | c :: rest =>
      if c = sep then some ([], rest)
      else (splitFirst sep rest).map (fun p => (c :: p.1, p.2))

/-- Split a character list on every occurrence of `sep` (the `&`
separation of query pairs). -/
def splitOnChar (sep : Char) : List Char → List (List Char)
  | [] => [[]]
  | c :: rest =>
      let r := splitOnChar sep rest
      if c = sep then [] :: r
      else (c :: r.headD []) :: r.tail

/-- Rejoin query pairs with `&`. -/
def joinAmp : List (List Char) → List Char
  | [] => []
  | [p] => p
  | p :: rest => p ++ '&' :: joinAmp rest

/-- The key of one `k=v` query pair (the part before the first `=`;
a pair without `=` is all key, as in `Url::query_pairs`). -/
def pairKeyChars (p : List Char) : List Char :=
  p.takeWhile (fun c => c ≠ '=')

/-- The `n`-parameter removal block of `parse_format_with_js`
(lines 365-379): parse the URL, drop every query pair whose key is
`n`, re-serialize.  Modelled as a textual query filter, exact for URLs
whose query pairs need no percent re-encoding and that keep at least
one non-`n` pair; a URL without a `?` is returned unchanged (the
source also keeps `final_url` untouched when `Url::parse` fails). -/
def removeNParam (u : String) : String :=
  match splitFirst '?' u.data with
  | none => u
  | some (base, query) =>
      let pairs := (splitOnChar '&' query).filter (fun p => pairKeyChars p ≠ ['n'])
      ⟨base ++ '?' :: joinAmp pairs⟩

/-! ## Raw format entries and descriptor construction -/

/-- One entry of `streamingData.adaptiveFormats` / `streamingData.formats`,
with exactly the JSON fields the extractor reads.  `cipher` is the
decoded `signatureCipher`/`cipher` bundle when that field is present.
`lengthSeconds`-style numeric strings stay strings and are parsed at
use sites, as in the source. -/
structure RawFormat where
  url : Option String
  cipher : Option CipherParams
  itag : Option Int
  quality : Option String
  width : Option Int
  height : Option Int
  fps : Option Int
  mimeType : Option String
  bitrate : Option Int
  contentLength : Option String
  deriving DecidableEq, Repr

/-- Whether `pattern` is a prefix of `l`. -/
def isPrefixChars : List Char → List Char → Bool
  | [], _ => true
  | _ :: _, [] => false
  | p :: ps, c :: cs => p = c && isPrefixChars ps cs

def listContainsSub (haystack pattern : List Char) : Bool :=
  match haystack with
  | [] => pattern.isEmpty
  | _ :: rest => isPrefixChars pattern haystack || listContainsSub rest pattern

/-- Rust `str::contains` (substring containment). -/
def strContains (s pat : String) : Bool :=
  listContainsSub s.data pat.data

/-- `parse_mime_type` (lines 439-451): returns `(vcodec, acodec, ext)`. -/
def parse_mime_type (mimeType : String) : Option String × Option String × String :=
  if strContains mimeType "video/mp4" then (some "h264", some "aac", "mp4")
  else if strContains mimeType "video/webm" then (some "vp9", some "opus", "webm")
  else if strContains mimeType "audio/mp4" then (none, some "aac", "m4a")
  else if strContains mimeType "audio/webm" then (none, some "opus", "webm")
  else (none, none, "unknown")

/-- The common descriptor-building tail of `parse_format_direct`
(lines 549-606) and `parse_format_with_js` (lines 381-437): both read
the same JSON fields and build the same `VideoFormat`, differing only
in the `url` they plug in. -/
def formatFromRaw (f : RawFormat) (url : String) : VideoFormat :=
  let codecs := parse_mime_type (f.mimeType.getD "video/mp4")
  { format_id := (f.itag.map toString).getD "unknown",
    url := url,
    quality := f.quality,
    resolution :=
      match f.width, f.height with
      | some w, some h => some (toString w ++ "x" ++ toString h)
      | _, _ => none,
    fps := f.fps,
    vcodec := codecs.1,
    acodec := codecs.2.1,
    ext := codecs.2.2,
    filesize := f.contentLength.bind (fun s => s.toNat?),
    tbr := f.bitrate,
    vbr := none,
    abr := none }

/-- `parse_format_with_js` (lines 336-437): use the direct `url` field
when present, otherwise resolve the cipher; then strip the `n` query
parameter from the final URL. -/
def parse_format_with_js (decryptSig decryptNsig : String → Except String String)
    (f : RawFormat) : Except String (Option VideoFormat) :=
  let urlE : Except String (Option String) :=
    match f.url with
    | some u => .ok (some u)
    | none =>
        match f.cipher with
        | some params => process_cipher_format decryptSig decryptNsig params
        | none => .ok none
  urlE.map (fun url? => url?.map (fun u => formatFromRaw f (removeNParam u)))

/-- `parse_format_direct` (lines 549-606): called only with a present
direct `url`, which is used verbatim (no `n`-stripping on this path). -/
def parse_format_direct (f : RawFormat) (url : String) : VideoFormat :=
  formatFromRaw f url

/-! ## Player response and the two extraction pipelines -/

structure VideoDetails where
  title : Option String
  shortDescription : Option String
  lengthSeconds : Option String
  author : Option String
  viewCount : Option String
  deriving DecidableEq, Repr

structure StreamingData where
  adaptiveFormats : Option (List RawFormat)
  formats : Option (List RawFormat)
  deriving DecidableEq, Repr

structure PlayerResponse where
  videoDetails : Option VideoDetails
  streamingData : Option StreamingData
  deriving DecidableEq, Repr

/-- `generate_thumbnails` (lines 608-629). -/
def generate_thumbnails (videoId : String) : List Thumbnail :=
  [{ url := "https://i.ytimg.com/vi/" ++ videoId ++ "/maxresdefault.jpg",
     width := some 1280, height := some 720, resolution := some "1280x720" },
   { url := "https://i.ytimg.com/vi/" ++ videoId ++ "/hqdefault.jpg",
     width := some 480, height := some 360, resolution := some "480x360" },
   { url := "https://i.ytimg.com/vi/" ++ videoId ++ "/mqdefault.jpg",
     width := some 320, height := some 180, resolution := some "320x180" }]

/-- `extract_formats_direct` (lines 506-547): over the adaptive list
then the regular list, keep exactly the entries with a direct `url`;
fail when nothing carries a direct URL. -/
def extract_formats_direct (pr : PlayerResponse) : Except String (List VideoFormat) :=
  match pr.streamingData with
  | none => .error "No streaming data found"
  | some sd =>
      let fromList (l : Option (List RawFormat)) : List VideoFormat :=
        (l.getD []).filterMap (fun f => f.url.map (fun u => parse_format_direct f u))
      let formats := fromList sd.adaptiveFormats ++ fromList sd.formats
      if formats.isEmpty then .error "No direct URL formats found" else .ok formats

/-- The per-entry loop bodies of `extract_formats_with_js`
(lines 304-325): each entry goes through `parse_format_with_js` (whose
error aborts the whole extraction via `?`), `Some` results are pushed
in order. -/
def collectFormatsWithJs (decryptSig decryptNsig : String → Except String String) :
    List RawFormat → Except String (List VideoFormat)
  | [] => .ok []
  | f :: rest =>
      match parse_format_with_js decryptSig decryptNsig f with
      | .error e => .error e
      | .ok none => collectFormatsWithJs decryptSig decryptNsig rest
      | .ok (some vf) => (collectFormatsWithJs decryptSig decryptNsig rest).map (vf :: ·)

/-- `extract_formats_with_js` (lines 291-334). -/
def extract_formats_with_js (decryptSig decryptNsig : String → Except String String)
    (pr : PlayerResponse) : Except String (List VideoFormat) :=
  match pr.streamingData with
  | none => .error "No streaming data found"
  | some sd =>
      match collectFormatsWithJs decryptSig decryptNsig
          ((sd.adaptiveFormats.getD []) ++ (sd.formats.getD [])) with
      | .error e => .error e
      | .ok formats =>
          if formats.isEmpty then .error "No video formats found" else .ok formats

/-- The metadata-assembly shared by `extract_metadata_direct`
(lines 453-504) and `extract_metadata_with_js` (lines 200-264): both
read the same `videoDetails` fields. -/
def assembleMetadata (vd : VideoDetails) (videoId : String)
    (formats : List VideoFormat) : VideoMetadata :=
  { id := videoId,
    title := vd.title.getD "Unknown Title",
    description := vd.shortDescription,
    duration := vd.lengthSeconds.bind (fun s => s.toNat?),
    uploader := vd.author,
    upload_date := none,
    view_count := vd.viewCount.bind (fun s => s.toNat?),
    like_count := none,
    formats := formats,
    thumbnails := generate_thumbnails videoId }

def extract_metadata_direct (pr : PlayerResponse) (videoId : String) :
    Except String VideoMetadata :=
  match pr.videoDetails with
  | none => .error "No video details found"
  | some vd => (extract_formats_direct pr).map (assembleMetadata vd videoId)

def extract_metadata_with_js (decryptSig decryptNsig : String → Except String String)
    (pr : PlayerResponse) (videoId : String) : Except String VideoMetadata :=
  match pr.videoDetails with
  | none => .error "No video details found"
  | some vd =>
      (extract_formats_with_js decryptSig decryptNsig pr).map (assembleMetadata vd videoId)

/-- The tail of `YouTubeExtractor::extract` (lines 688-711), from the
point where the player response has been located in the fetched page:
try `extract_metadata_direct`; on its failure fetch the player script
(`extract_player_js`) and fall back to the JS-assisted path.  The
second component records whether the player-script fetch (and with it
the decryption machinery) was reached. -/
def extractFromPlayerResponse (decryptSig decryptNsig : String → Except String String)
    (pr : PlayerResponse) (videoId : String) : Except String VideoMetadata × Bool :=
  match extract_metadata_direct pr videoId with
  | .ok metadata => (.ok metadata, false)
  | .error _ => (extract_metadata_with_js decryptSig decryptNsig pr videoId, true)

/-- Whether some entry of the streaming payload carries an
already-resolved direct URL. -/
def hasDirectFormat (pr : PlayerResponse) : Bool :=
  match pr.streamingData with
  | none => false
  | some sd =>
      ((sd.adaptiveFormats.getD []) ++ (sd.formats.getD [])).any (fun f => f.url.isSome)

/-! ## Helper lemmas -/

theorem applyOp_length_le (op : TransformOp) (l : List Char) :
    (applyOp op l).length ≤ l.length := by
  cases op with
  | Reverse => simp [applyOp]
  | Splice index =>
      simp only [applyOp]
      split
      · exact le_trans (List.length_eraseIdx_le l index) (le_refl _)
      · exact le_refl _
  | Swap index =>
      simp only [applyOp]
      split
      · simp
      · exact le_refl _

theorem applyOps_length_le (ops : List TransformOp) (l : List Char) :
    (ops.foldl (fun sigChars op => applyOp op sigChars) l).length ≤ l.length := by
  induction ops generalizing l with
  | nil => exact le_refl _
  | cons op rest ih =>
      exact le_trans (ih (applyOp op l)) (applyOp_length_le op l)

theorem sanChar_safe (c : Char) :
    sanChar c ≠ '<' ∧ sanChar c ≠ '>' ∧ sanChar c ≠ ':' ∧ sanChar c ≠ '"' ∧
    sanChar c ≠ '|' ∧ sanChar c ≠ '?' ∧ sanChar c ≠ '*' ∧ sanChar c ≠ '/' ∧
    sanChar c ≠ '\\' ∧ isControlChar (sanChar c) = false := by
  unfold sanChar
  split_ifs with h1 h2 h3
  · decide
  · decide
  · decide
  · push_neg at h1 h2
    obtain ⟨n1, n2, n3, n4, n5, n6, n7⟩ := h1
    obtain ⟨n8, n9⟩ := h2
    exact ⟨n1, n2, n3, n4, n5, n6, n7, n8, n9, by simpa using h3⟩

theorem sanChar_idem (c : Char) : sanChar (sanChar c) = sanChar c := by
  obtain ⟨n1, n2, n3, n4, n5, n6, n7, n8, n9, nc⟩ := sanChar_safe c
  generalize hd : sanChar c = d at *
  rw [sanChar,
      if_neg (by push_neg; exact ⟨n1, n2, n3, n4, n5, n6, n7⟩),
      if_neg (by push_neg; exact ⟨n8, n9⟩),
      if_neg (by simp [nc])]

/-! ## Claim theorems -/

/-- C1: for the input string `"abcdef"`, the fallback transform loop of
`decrypt_signature` applied to `[Reverse, RemoveAt(1), SwapWithFirst(2)]`
yields the intermediate results `"fedcba"` (after the reverse) and
`"fdcba"` (after removing index 1), and the final result `"cdfba"`
(after swapping positions 0 and 2). -/
theorem transform_sequence_abcdef :
    applyOp .Reverse "abcdef".data = "fedcba".data ∧
    applyOp (.Splice 1) "fedcba".data = "fdcba".data ∧
    applyOp (.Swap 2) "fdcba".data = "cdfba".data ∧
    applySignatureOps "abcdef" [.Reverse, .Splice 1, .Swap 2] = "cdfba" := by
  refine ⟨by decide, by decide, by decide, by decide⟩

/-- C9: the fallback transform application is total: a `Splice` or
`Swap` whose index is not below the current length is a no-op,
`Reverse` and in-range `Swap` preserve the length, an in-range `Splice`
shortens the list by exactly one, and applying any operation sequence
never lengthens the input (and always produces a result). -/
theorem transform_ops_safety (l : List Char) (i : Nat) (ops : List TransformOp) :
    (l.length ≤ i → applyOp (.Splice i) l = l) ∧
    (l.length ≤ i → applyOp (.Swap i) l = l) ∧
    (applyOp .Reverse l).length = l.length ∧
    (i < l.length → (applyOp (.Swap i) l).length = l.length) ∧
    (i < l.length → (applyOp (.Splice i) l).length = l.length - 1) ∧
    (applySignatureOps ⟨l⟩ ops).length ≤ l.length := by
  refine ⟨?_, ?_, ?_, ?_, ?_, ?_⟩
  · intro h
    simp [applyOp, Nat.not_lt.mpr h]
  · intro h
    simp [applyOp, Nat.not_lt.mpr h]
  · simp [applyOp]
  · intro h
    simp [applyOp, h]
  · intro h
    simp [applyOp, h, List.length_eraseIdx]
  · simpa [applySignatureOps, String.length] using applyOps_length_le ops l

/-- Witness for C9 at concrete inputs: on `"abc"` an out-of-range
`Splice 5` is a no-op and an in-range `Splice 1` shortens to length 2. -/
theorem transform_ops_safety_witness :
    applyOp (.Splice 5) "abc".data = "abc".data ∧
    (applyOp (.Splice 1) "abc".data).length = "abc".data.length - 1 :=
  ⟨(transform_ops_safety "abc".data 5 []).1 (by decide),
   (transform_ops_safety "abc".data 1 []).2.2.2.2.1 (by decide)⟩

/-- C10: `sanitize_filename` preserves the character count, its output
contains none of the unsafe characters `< > : " | ? * / \` and no
control characters, and it is idempotent. -/
theorem sanitize_filename_props (s : String) :
    (sanitize_filename s).length = s.length ∧
    (∀ c ∈ (sanitize_filename s).data,
      c ≠ '<' ∧ c ≠ '>' ∧ c ≠ ':' ∧ c ≠ '"' ∧ c ≠ '|' ∧ c ≠ '?' ∧ c ≠ '*' ∧
      c ≠ '/' ∧ c ≠ '\\' ∧ isControlChar c = false) ∧
    sanitize_filename (sanitize_filename s) = sanitize_filename s := by
  refine ⟨?_, ?_, ?_⟩
  · show (s.data.map sanChar).length = s.data.length
    simp
  · intro c hc
    simp only [sanitize_filename, List.mem_map] at hc
    obtain ⟨c0, _, rfl⟩ := hc
    exact sanChar_safe c0
  · show (⟨(s.data.map sanChar).map sanChar⟩ : String) = ⟨s.data.map sanChar⟩
    rw [List.map_map]
    exact congrArg String.mk
      (List.map_congr_left (fun c _ => sanChar_idem c))

/-- Witness for C10 at the concrete input `"a/b"`, whose sanitized form
is `"a-b"`: the character `'-'` of the output is none of the unsafe
characters. -/
theorem sanitize_filename_witness :
    '-' ≠ '<' ∧ '-' ≠ '>' ∧ '-' ≠ ':' ∧ '-' ≠ '"' ∧ '-' ≠ '|' ∧ '-' ≠ '?' ∧
    '-' ≠ '*' ∧ '-' ≠ '/' ∧ '-' ≠ '\\' ∧ isControlChar '-' = false :=
  (sanitize_filename_props "a/b").2.1 '-' (by decide)

/-- C5: a transfer whose first two attempts return HTTP 403 and whose
third returns 200 succeeds after exactly two backoff waits of `2^1` and
`2^2` seconds; a transfer returning 403 on every attempt fails after
`MAX_RETRIES = 3` attempts, reporting that attempt count and the last
status; any non-success status other than 403 fails immediately on the
first attempt. -/
theorem download_retry_behaviour :
    (∀ f : Nat → AttemptOutcome, f 1 = .status 403 → f 2 = .status 403 →
      f 3 = .status 200 → downloadRun f = .success [2 ^ 1, 2 ^ 2]) ∧
    (∀ f : Nat → AttemptOutcome, (∀ n, f n = .status 403) →
      downloadRun f = .httpFailure MAX_RETRIES 403) ∧
    (∀ (f : Nat → AttemptOutcome) (s : Nat), isSuccessStatus s = false → s ≠ 403 →
      f 1 = .status s → downloadRun f = .httpFailure 1 s) := by
  refine ⟨?_, ?_, ?_⟩
  · intro f h1 h2 h3
    rw [downloadRun, downloadLoop, h1]
    norm_num [isSuccessStatus, MAX_RETRIES]
    rw [downloadLoop, h2]
    norm_num [isSuccessStatus, MAX_RETRIES]
    rw [downloadLoop, h3]
    norm_num [isSuccessStatus]
  · intro f h
    rw [downloadRun, downloadLoop, h 1]
    norm_num [isSuccessStatus, MAX_RETRIES]
    rw [downloadLoop, h 2]
    norm_num [isSuccessStatus, MAX_RETRIES]
    rw [downloadLoop, h 3]
    norm_num [isSuccessStatus, MAX_RETRIES]
  · intro f s hs h403 h1
    rw [downloadRun, downloadLoop, h1]
    simp [hs, h403]

/-- Witness for C5 at concrete attempt oracles: 403, 403, 200 succeeds
with waits 2 and 4 seconds; constant 403 exhausts the three attempts;
constant 404 fails at once. -/
theorem download_retry_behaviour_witness :
    downloadRun (fun n => if n = 3 then .status 200 else .status 403)
        = .success [2 ^ 1, 2 ^ 2] ∧
    downloadRun (fun _ => .status 403) = .httpFailure MAX_RETRIES 403 ∧
    downloadRun (fun _ => .status 404) = .httpFailure 1 404 :=
  ⟨download_retry_behaviour.1 _ rfl rfl rfl,
   download_retry_behaviour.2.1 _ (fun _ => rfl),
   download_retry_behaviour.2.2 _ 404 (by decide) (by decide) rfl⟩

/-- C6: a transfer onto an existing file of size `N` carries a
`Range: bytes=N-` header, opens the file in append mode, starts its
running byte count at `N`, and reports an expected total of `N` plus
the remaining content length; onto a missing file the offset is zero,
no range header is sent and the file is created fresh. -/
theorem download_resume_behaviour (size : Nat) (contentLength : Option Nat) :
    (buildRequest (resumeOffset true size)).range
        = some ("bytes=" ++ toString size ++ "-") ∧
    (performDownloadSetup (resumeOffset true size) contentLength).mode
        = FileMode.appendSeekEnd ∧
    (performDownloadSetup (resumeOffset true size) contentLength).startCount = size ∧
    (performDownloadSetup (resumeOffset true size) contentLength).expectedTotal
        = contentLength.map (fun remaining => remaining + size) ∧
    (buildRequest (resumeOffset false size)).range = none ∧
    (performDownloadSetup (resumeOffset false size) contentLength).mode
        = FileMode.createTruncate ∧
    (performDownloadSetup (resumeOffset false size) contentLength).startCount = 0 :=
  ⟨rfl, rfl, rfl, rfl, rfl, rfl, rfl⟩

/-! ### Format selection (C2) -/

theorem foldlMax_spec (key : VideoFormat → Int) (xs : List VideoFormat) (acc : VideoFormat) :
    (key acc ≤ key (xs.foldl (fun a y => if key a ≤ key y then y else a) acc) ∧
      ∀ x ∈ xs, key x ≤ key (xs.foldl (fun a y => if key a ≤ key y then y else a) acc)) ∧
    ((xs.foldl (fun a y => if key a ≤ key y then y else a) acc = acc ∧
        ∀ x ∈ xs, key x < key acc) ∨
      ∃ l₁ l₂, xs = l₁ ++ (xs.foldl (fun a y => if key a ≤ key y then y else a) acc) :: l₂ ∧
        ∀ x ∈ l₂, key x < key (xs.foldl (fun a y => if key a ≤ key y then y else a) acc)) := by
  induction xs generalizing acc with
  | nil =>
      exact ⟨⟨le_refl _, by simp⟩, Or.inl ⟨rfl, by simp⟩⟩
  | cons y ys ih =>
      simp only [List.foldl_cons]
      by_cases h : key acc ≤ key y
      · rw [if_pos h]
        obtain ⟨⟨hLe, hAll⟩, hDec⟩ := ih y
        refine ⟨⟨le_trans h hLe, ?_⟩, ?_⟩
        · intro x hx
          rcases List.mem_cons.mp hx with rfl | hx
          · exact hLe
          · exact hAll x hx
        · rcases hDec with ⟨hm, hlt⟩ | ⟨l₁, l₂, hEq, hlt⟩
          · refine Or.inr ⟨[], ys, ?_, ?_⟩
            · rw [List.nil_append, hm]
            · intro x hx
              rw [hm]
              exact hlt x hx
          · refine Or.inr ⟨y :: l₁, l₂, ?_, hlt⟩
            rw [List.cons_append]
            exact congrArg (fun t => y :: t) hEq
      · rw [if_neg h]
        obtain ⟨⟨hLe, hAll⟩, hDec⟩ := ih acc
        have hy : key y < key acc := lt_of_not_le h
        refine ⟨⟨hLe, ?_⟩, ?_⟩
        · intro x hx
          rcases List.mem_cons.mp hx with rfl | hx
          · exact le_of_lt (lt_of_lt_of_le hy hLe)
          · exact hAll x hx
        · rcases hDec with ⟨hm, hlt⟩ | ⟨l₁, l₂, hEq, hlt⟩
          · refine Or.inl ⟨hm, ?_⟩
            intro x hx
            rcases List.mem_cons.mp hx with rfl | hx
            · exact hy
            · exact hlt x hx
          · refine Or.inr ⟨y :: l₁, l₂, ?_, hlt⟩
            rw [List.cons_append]
            exact congrArg (fun t => y :: t) hEq

/-- C2 (amended): `select_best_format` excludes every descriptor missing
a codec tag and among the remaining ones returns one maximizing
`container_priority(ext) + tbr`; it fails with the no-suitable-format
error exactly when no descriptor carries both codec tags.  Ties are
broken by LAST-seen order (Rust `max_by_key` keeps the last maximal
element), not first-seen: the returned descriptor occurs at a position
of the eligible list after which every element scores strictly lower. -/
theorem select_best_format_amended (formats : List VideoFormat) :
    (select_best_format formats = .error "No suitable format found" ↔
      ∀ f ∈ formats, ¬(f.vcodec.isSome ∧ f.acodec.isSome)) ∧
    (∀ m, select_best_format formats = .ok m →
      m ∈ eligibleFormats formats ∧
      (∀ x ∈ eligibleFormats formats, formatScore x ≤ formatScore m) ∧
      ∃ l₁ l₂, eligibleFormats formats = l₁ ++ m :: l₂ ∧
        ∀ x ∈ l₂, formatScore x < formatScore m) := by
  constructor
  · rw [select_best_format]
    cases heq : eligibleFormats formats with
    | nil =>
        constructor
        · intro _ f hf hcodecs
          have hmem : f ∈ eligibleFormats formats := by
            rw [eligibleFormats]
            refine List.mem_filter.mpr ⟨hf, ?_⟩
            simp [hcodecs.1, hcodecs.2]
          rw [heq] at hmem
          exact absurd hmem (List.not_mem_nil f)
        · intro _
          rfl
    | cons x xs =>
        constructor
        · intro h
          exact absurd h (by simp [maxByKeyLast])
        · intro hnone
          exfalso
          have hx : x ∈ eligibleFormats formats := by
            rw [heq]
            exact List.mem_cons_self x xs
          have hx2 := List.mem_filter.mp hx
          have := hnone x hx2.1
          have hcodecs := hx2.2
          simp only [Bool.and_eq_true] at hcodecs
          exact absurd ⟨hcodecs.1, hcodecs.2⟩ this
  · intro m hm
    rw [select_best_format] at hm
    cases heq : eligibleFormats formats with
    | nil =>
        rw [heq] at hm
        simp [maxByKeyLast] at hm
    | cons x xs =>
        rw [heq] at hm
        simp only [maxByKeyLast, Except.ok.injEq] at hm
        obtain ⟨⟨hLe, hAll⟩, hDec⟩ := foldlMax_spec formatScore xs x
        rw [hm] at hLe hAll hDec
        refine ⟨?_, ?_, ?_⟩
        · rcases hDec with ⟨hmx, _⟩ | ⟨l₁, l₂, hEq, _⟩
          · rw [hmx]
            exact List.mem_cons_self x xs
          · rw [hEq]
            exact List.mem_cons_of_mem x (List.mem_append_right l₁ (List.mem_cons_self m l₂))
        · intro z hz
          rcases List.mem_cons.mp hz with rfl | hz
          · exact hLe
          · exact hAll z hz
        · rcases hDec with ⟨hmx, hlt⟩ | ⟨l₁, l₂, hEq, hlt⟩
          · exact ⟨[], xs, by simp [hmx], fun z hz => lt_of_lt_of_le (hlt z hz) (le_of_eq (congrArg formatScore hmx.symm))⟩
          · exact ⟨x :: l₁, l₂, by simp [hEq], hlt⟩

/-- Two eligible mp4 descriptors with equal scores, differing only in
their identifier: a tie. -/
def tieFormatA : VideoFormat :=
  { format_id := "a", url := "u", quality := none, resolution := none, fps := none,
    vcodec := some "h264", acodec := some "aac", ext := "mp4", filesize := none,
    tbr := some 100, vbr := none, abr := none }

def tieFormatB : VideoFormat :=
  { tieFormatA with format_id := "b" }

/-- Counterexample to C2 as stated: on a two-element tie the selection
returns the SECOND (last-seen) descriptor, not the first-seen one. -/
theorem select_best_format_tie_counterexample :
    formatScore tieFormatA = formatScore tieFormatB ∧
    select_best_format [tieFormatA, tieFormatB] = .ok tieFormatB ∧
    tieFormatB ≠ tieFormatA :=
  ⟨rfl, rfl, by decide⟩

/-- Witness for C2 (amended) at the concrete tie list: the returned
descriptor `tieFormatB` is eligible and scores at least `tieFormatA`. -/
theorem select_best_format_amended_witness :
    tieFormatB ∈ eligibleFormats [tieFormatA, tieFormatB] ∧
    formatScore tieFormatA ≤ formatScore tieFormatB :=
  ⟨((select_best_format_amended [tieFormatA, tieFormatB]).2 tieFormatB rfl).1,
   ((select_best_format_amended [tieFormatA, tieFormatB]).2 tieFormatB rfl).2.1
     tieFormatA (by decide)⟩

/-! ### Cipher-format URL resolution (C3, C4) -/

/-- The final URL assembled by the successful-decryption branch of
`process_cipher_format` (lines 156-177): base URL, `&sp=` (defaulting
to `signature`), the decrypted signature, and `&n=` with the decrypted
throttle token when an `n` token is present (the raw token when its
decryption fails). -/
def cipherFinalUrl (decryptNsig : String → Except String String)
    (params : CipherParams) (url decryptedSig : String) : String :=
  let sp := params.sp.getD "signature"
  let baseUrl := url ++ "&" ++ sp ++ "=" ++ decryptedSig
  match params.n with
  | some nParam =>
      match decryptNsig nParam with
      | .ok decryptedNsig => baseUrl ++ "&n=" ++ decryptedNsig
      | .error _ => baseUrl ++ "&n=" ++ nParam
  | none => baseUrl

/-- C3 (amended): for a cipher-protected format whose decoded params
contain `url` and `s` and whose signature decryption succeeds,
`process_cipher_format` returns
`base_url ++ "&" ++ sp ++ "=" ++ decrypted_sig` (with `sp` defaulting
to `"signature"`), appending `"&n=" ++ decrypted_n` when an `n` token
is present — but the descriptor built by `parse_format_with_js` then
carries that URL with every `n` query parameter stripped again, so the
decrypted `n` token does not survive into the returned format URL. -/
theorem process_cipher_format_url (decryptSig decryptNsig : String → Except String String)
    (params : CipherParams) (u s d : String) (rf : RawFormat)
    (hu : params.url = some u) (hs : params.s = some s) (hd : decryptSig s = .ok d)
    (hrfUrl : rf.url = none) (hrfCipher : rf.cipher = some params) :
    process_cipher_format decryptSig decryptNsig params =
      .ok (some (cipherFinalUrl decryptNsig params u d)) ∧
    parse_format_with_js decryptSig decryptNsig rf =
      .ok (some (formatFromRaw rf (removeNParam (cipherFinalUrl decryptNsig params u d)))) := by
  have hproc : process_cipher_format decryptSig decryptNsig params =
      .ok (some (cipherFinalUrl decryptNsig params u d)) := by
    simp only [process_cipher_format, hu, hs, hd, cipherFinalUrl]
  refine ⟨hproc, ?_⟩
  simp only [parse_format_with_js, hrfUrl, hrfCipher, hproc, Except.map, Option.map]

/-- Concrete cipher bundle, decrypters and raw format used by the C3/C4
witnesses and counterexample. -/
def cipherEx : CipherParams :=
  { url := some "https://ex.com/v?id=1", s := some "enc", sp := none, n := some "tok" }

/-- An always-succeeding decrypter: appends `X` to the token. -/
def appendX : String → Except String String := fun t => .ok (t ++ "X")

/-- An always-failing decrypter. -/
def failDecrypt : String → Except String String := fun _ => .error "decryption failed"

def rfCipherEx : RawFormat :=
  { url := none, cipher := some cipherEx, itag := some 18, quality := none,
    width := none, height := none, fps := none, mimeType := some "video/mp4",
    bitrate := some 100, contentLength := none }

/-- The query keys of a URL (the part of each `&`-separated pair before
its first `=`). -/
def queryKeys (u : String) : List String :=
  match splitFirst '?' u.data with
  | none => []
  | some (_, query) => (splitOnChar '&' query).map (fun p => (⟨pairKeyChars p⟩ : String))

/-- Counterexample to C3 as stated: with an `n` token present and both
decryptions succeeding, `process_cipher_format` does append
`&n=<decrypted>`, but the URL of the descriptor finally built by
`parse_format_with_js` has no `n` query parameter at all — the
decrypted `n` token does not appear in the final URL. -/
theorem process_cipher_format_n_counterexample :
    cipherEx.n = some "tok" ∧
    process_cipher_format appendX appendX cipherEx =
      .ok (some "https://ex.com/v?id=1&signature=encX&n=tokX") ∧
    (parse_format_with_js appendX appendX rfCipherEx).map (Option.map VideoFormat.url) =
      .ok (some "https://ex.com/v?id=1&signature=encX") ∧
    queryKeys "https://ex.com/v?id=1&signature=encX" = ["id", "signature"] := by
  refine ⟨rfl, rfl, rfl, by decide⟩

/-- Witness for C3 (amended) at the concrete cipher bundle. -/
theorem process_cipher_format_url_witness :
    process_cipher_format appendX appendX cipherEx =
      .ok (some (cipherFinalUrl appendX cipherEx "https://ex.com/v?id=1" "encX")) ∧
    parse_format_with_js appendX appendX rfCipherEx =
      .ok (some (formatFromRaw rfCipherEx
        (removeNParam (cipherFinalUrl appendX cipherEx "https://ex.com/v?id=1" "encX")))) :=
  process_cipher_format_url appendX appendX cipherEx
    "https://ex.com/v?id=1" "enc" "encX" rfCipherEx rfl rfl rfl rfl rfl

/-- C4: decryption failures degrade instead of aborting.  When
signature decryption fails, the format keeps a URL built from the raw
signature under the `sp` key; when throttle-token decryption fails, the
original `n` token is appended verbatim; and `process_cipher_format`
returns `Ok` on every input, so neither failure aborts extraction. -/
theorem decryption_failure_degrades (decryptSig decryptNsig : String → Except String String)
    (params : CipherParams) (u s : String)
    (hu : params.url = some u) (hs : params.s = some s) :
    (∀ e, decryptSig s = .error e →
      process_cipher_format decryptSig decryptNsig params =
        .ok (some (u ++ "&" ++ params.sp.getD "signature" ++ "=" ++ s))) ∧
    (∀ d n e', decryptSig s = .ok d → params.n = some n → decryptNsig n = .error e' →
      process_cipher_format decryptSig decryptNsig params =
        .ok (some (u ++ "&" ++ params.sp.getD "signature" ++ "=" ++ d ++ "&n=" ++ n))) ∧
    (∀ q : CipherParams, ∃ r, process_cipher_format decryptSig decryptNsig q = .ok r) := by
  refine ⟨?_, ?_, ?_⟩
  · intro e he
    simp only [process_cipher_format, hu, hs, he]
  · intro d n e' hd hn hne
    simp only [process_cipher_format, hu, hs, hd, hn, hne]
  · intro q
    rcases q with ⟨qu, qs, qsp, qn⟩
    cases qu with
    | none => exact ⟨none, by simp only [process_cipher_format]⟩
    | some url =>
        cases qs with
        | none => exact ⟨some url, by simp only [process_cipher_format]⟩
        | some signature =>
            cases hds : decryptSig signature with
            | error e =>
                exact ⟨some (url ++ "&" ++ qsp.getD "signature" ++ "=" ++ signature),
                  by simp only [process_cipher_format, hds]⟩
            | ok d =>
                cases qn with
                | none =>
                    exact ⟨some (url ++ "&" ++ qsp.getD "signature" ++ "=" ++ d),
                      by simp only [process_cipher_format, hds]⟩
                | some nParam =>
                    cases hdn : decryptNsig nParam with
                    | error e =>
                        exact ⟨some (url ++ "&" ++ qsp.getD "signature" ++ "=" ++ d
                            ++ "&n=" ++ nParam),
                          by simp only [process_cipher_format, hds, hdn]⟩
                    | ok dn =>
                        exact ⟨some (url ++ "&" ++ qsp.getD "signature" ++ "=" ++ d
                            ++ "&n=" ++ dn),
                          by simp only [process_cipher_format, hds, hdn]⟩

/-- Witness for C4 at the concrete cipher bundle: a failing signature
decrypter yields the raw-signature URL, and a failing throttle
decrypter yields the original `n` token, both as `Ok`. -/
theorem decryption_failure_degrades_witness :
    process_cipher_format failDecrypt failDecrypt cipherEx =
      .ok (some "https://ex.com/v?id=1&signature=enc") ∧
    process_cipher_format appendX failDecrypt cipherEx =
      .ok (some "https://ex.com/v?id=1&signature=encX&n=tok") :=
  ⟨(decryption_failure_degrades failDecrypt failDecrypt cipherEx
      "https://ex.com/v?id=1" "enc" rfl rfl).1 "decryption failed" rfl,
   (decryption_failure_degrades appendX failDecrypt cipherEx
      "https://ex.com/v?id=1" "enc" rfl rfl).2.1 "encX" "tok" "decryption failed"
      rfl rfl rfl⟩

/-! ### Extraction pipelines (C7, C8) -/

theorem extract_metadata_direct_formats {pr : PlayerResponse} {videoId : String}
    {m : VideoMetadata} (h : extract_metadata_direct pr videoId = .ok m) :
    extract_formats_direct pr = .ok m.formats := by
  rw [extract_metadata_direct] at h
  cases hvd : pr.videoDetails with
  | none =>
      rw [hvd] at h
      exact absurd h (by simp)
  | some vd =>
      rw [hvd] at h
      cases hfd : extract_formats_direct pr with
      | error e =>
          rw [hfd] at h
          simp [Except.map] at h
      | ok fs =>
          rw [hfd] at h
          simp only [Except.map] at h
          injection h with h
          subst h
          rfl

theorem extract_metadata_with_js_formats {decryptSig decryptNsig : String → Except String String}
    {pr : PlayerResponse} {videoId : String} {m : VideoMetadata}
    (h : extract_metadata_with_js decryptSig decryptNsig pr videoId = .ok m) :
    extract_formats_with_js decryptSig decryptNsig pr = .ok m.formats := by
  rw [extract_metadata_with_js] at h
  cases hvd : pr.videoDetails with
  | none =>
      rw [hvd] at h
      exact absurd h (by simp)
  | some vd =>
      rw [hvd] at h
      cases hfd : extract_formats_with_js decryptSig decryptNsig pr with
      | error e =>
          rw [hfd] at h
          simp [Except.map] at h
      | ok fs =>
          rw [hfd] at h
          simp only [Except.map] at h
          injection h with h
          subst h
          rfl

theorem mem_extract_formats_direct {pr : PlayerResponse} {fs : List VideoFormat}
    (h : extract_formats_direct pr = .ok fs) {vf : VideoFormat} (hvf : vf ∈ fs) :
    ∃ rf u, vf = formatFromRaw rf u := by
  rw [extract_formats_direct] at h
  cases hsd : pr.streamingData with
  | none =>
      rw [hsd] at h
      exact absurd h (by simp)
  | some sd =>
      rw [hsd] at h
      simp only [] at h
      split at h
      · exact absurd h (by simp)
      · injection h with h
        subst h
        rcases List.mem_append.mp hvf with h1 | h1 <;>
        · obtain ⟨rf, hmem, heq⟩ := List.mem_filterMap.mp h1
          cases hru : rf.url with
          | none =>
              rw [hru] at heq
              exact absurd heq (by simp)
          | some u =>
              rw [hru] at heq
              simp only [Option.map] at heq
              injection heq with heq
              exact ⟨rf, u, heq.symm⟩

theorem parse_format_with_js_ok_some {decryptSig decryptNsig : String → Except String String}
    {f : RawFormat} {vf : VideoFormat}
    (h : parse_format_with_js decryptSig decryptNsig f = .ok (some vf)) :
    ∃ u, vf = formatFromRaw f (removeNParam u) := by
  rw [parse_format_with_js] at h
  cases hfu : f.url with
  | some u =>
      rw [hfu] at h
      simp only [Except.map, Option.map] at h
      injection h with h
      injection h with h
      exact ⟨u, h.symm⟩
  | none =>
      rw [hfu] at h
      cases hfc : f.cipher with
      | none =>
          rw [hfc] at h
          simp [Except.map] at h
      | some params =>
          rw [hfc] at h
          simp only [] at h
          cases hpc : process_cipher_format decryptSig decryptNsig params with
          | error e =>
              rw [hpc] at h
              simp [Except.map] at h
          | ok o =>
              rw [hpc] at h
              cases o with
              | none => simp [Except.map] at h
              | some u =>
                  simp only [Except.map, Option.map] at h
                  injection h with h
                  injection h with h
                  exact ⟨u, h.symm⟩

theorem mem_collectFormatsWithJs {decryptSig decryptNsig : String → Except String String} :
    ∀ (L : List RawFormat) (fs : List VideoFormat),
      collectFormatsWithJs decryptSig decryptNsig L = .ok fs →
      ∀ vf ∈ fs, ∃ rf u, vf = formatFromRaw rf u := by
  intro L
  induction L with
  | nil =>
      intro fs h vf hvf
      rw [collectFormatsWithJs] at h
      injection h with h
      subst h
      exact absurd hvf (List.not_mem_nil vf)
  | cons f rest ih =>
      intro fs h vf hvf
      rw [collectFormatsWithJs] at h
      cases hp : parse_format_with_js decryptSig decryptNsig f with
      | error e =>
          rw [hp] at h
          exact absurd h (by simp)
      | ok o =>
          rw [hp] at h
          cases o with
          | none => exact ih fs h vf hvf
          | some vf0 =>
              cases hr : collectFormatsWithJs decryptSig decryptNsig rest with
              | error e =>
                  rw [hr] at h
                  simp [Except.map] at h
              | ok fs0 =>
                  rw [hr] at h
                  simp only [Except.map] at h
                  injection h with h
                  subst h
                  rcases List.mem_cons.mp hvf with rfl | hmem
                  · obtain ⟨u, hu⟩ := parse_format_with_js_ok_some hp
                    exact ⟨f, removeNParam u, hu⟩
                  · exact ih fs0 hr vf hmem

theorem extract_formats_with_js_collect {decryptSig decryptNsig : String → Except String String}
    {pr : PlayerResponse} {fs : List VideoFormat}
    (h : extract_formats_with_js decryptSig decryptNsig pr = .ok fs) :
    ∃ L, collectFormatsWithJs decryptSig decryptNsig L = .ok fs := by
  rw [extract_formats_with_js] at h
  cases hsd : pr.streamingData with
  | none =>
      rw [hsd] at h
      exact absurd h (by simp)
  | some sd =>
      rw [hsd] at h
      simp only [] at h
      cases hc : collectFormatsWithJs decryptSig decryptNsig
          ((sd.adaptiveFormats.getD []) ++ (sd.formats.getD [])) with
      | error e =>
          rw [hc] at h
          exact absurd h (by simp)
      | ok fs0 =>
          rw [hc] at h
          simp only [] at h
          split at h
          · exact absurd h (by simp)
          · injection h with h
            subst h
            exact ⟨_, hc⟩

theorem parse_mime_type_codecs (mimeType : String) :
    (parse_mime_type mimeType).1.isSome = true ∨
    (parse_mime_type mimeType).2.1.isSome = true ∨
    (parse_mime_type mimeType).2.2 = "unknown" := by
  rw [parse_mime_type]
  split_ifs <;> simp

theorem formatFromRaw_codecs (rf : RawFormat) (u : String) :
    (formatFromRaw rf u).vcodec.isSome = true ∨
    (formatFromRaw rf u).acodec.isSome = true ∨
    (formatFromRaw rf u).ext = "unknown" :=
  parse_mime_type_codecs (rf.mimeType.getD "video/mp4")

/-- C8 (amended): every `StreamDescriptor` of a successfully returned
`VideoMetadata` has at least one codec tag present OR carries the
container extension `"unknown"`; a format entry whose mime type matches
none of the four recognized patterns is still returned, with both codec
tags absent and extension `"unknown"`. -/
theorem returned_formats_codec_tags (decryptSig decryptNsig : String → Except String String)
    (pr : PlayerResponse) (videoId : String) (m : VideoMetadata) (b : Bool)
    (h : extractFromPlayerResponse decryptSig decryptNsig pr videoId = (.ok m, b)) :
    ∀ f ∈ m.formats,
      f.vcodec.isSome = true ∨ f.acodec.isSome = true ∨ f.ext = "unknown" := by
  intro f hf
  rw [extractFromPlayerResponse] at h
  cases hd : extract_metadata_direct pr videoId with
  | ok m0 =>
      rw [hd] at h
      simp only [Prod.mk.injEq] at h
      obtain ⟨h1, _⟩ := h
      injection h1 with h1
      subst h1
      obtain ⟨rf, u, rfl⟩ := mem_extract_formats_direct (extract_metadata_direct_formats hd) hf
      exact formatFromRaw_codecs rf u
  | error e =>
      rw [hd] at h
      simp only [Prod.mk.injEq] at h
      obtain ⟨h1, _⟩ := h
      obtain ⟨L, hL⟩ := extract_formats_with_js_collect (extract_metadata_with_js_formats h1)
      obtain ⟨rf, u, rfl⟩ := mem_collectFormatsWithJs L m.formats hL f hf
      exact formatFromRaw_codecs rf u

/-- A raw format with a direct URL but an unrecognized mime type. -/
def rfUnknownMime : RawFormat :=
  { url := some "https://e/v", cipher := none, itag := some 99, quality := none,
    width := none, height := none, fps := none,
    mimeType := some "application/octet-stream", bitrate := none, contentLength := none }

def vdEx : VideoDetails :=
  { title := some "T", shortDescription := none, lengthSeconds := none,
    author := none, viewCount := none }

def prUnknownMime : PlayerResponse :=
  { videoDetails := some vdEx,
    streamingData := some { adaptiveFormats := some [rfUnknownMime], formats := none } }

/-- Counterexample to C8 as stated: an extraction that succeeds (via
the direct path) returns a metadata whose single format has BOTH codec
tags absent, because its mime type matches none of the recognized
patterns. -/
theorem returned_formats_codec_tags_counterexample :
    (extractFromPlayerResponse appendX appendX prUnknownMime "vid").1.map
        (fun m => m.formats.map (fun f => (f.vcodec, f.acodec))) =
      .ok [(none, none)] := rfl

/-- Witness for C8 (amended) at a concrete successful extraction. -/
theorem returned_formats_codec_tags_witness :
    (formatFromRaw rfUnknownMime "https://e/v").vcodec.isSome = true ∨
    (formatFromRaw rfUnknownMime "https://e/v").acodec.isSome = true ∨
    (formatFromRaw rfUnknownMime "https://e/v").ext = "unknown" :=
  returned_formats_codec_tags appendX appendX prUnknownMime "vid" _ false rfl
    (formatFromRaw rfUnknownMime "https://e/v") (List.Mem.head _)

/-- C7 (amended): whenever the player response carries a video-details
section AND at least one streaming-payload entry with an
already-resolved direct URL, the extraction returns via the direct
path: its result is exactly `extract_metadata_direct`'s successful
output and the player script is never fetched (so no signature or
throttle decryption is invoked). -/
theorem direct_path_precedence (decryptSig decryptNsig : String → Except String String)
    (pr : PlayerResponse) (videoId : String)
    (hvd : pr.videoDetails.isSome = true) (hdf : hasDirectFormat pr = true) :
    extractFromPlayerResponse decryptSig decryptNsig pr videoId =
      (extract_metadata_direct pr videoId, false) ∧
    ∃ m, extract_metadata_direct pr videoId = .ok m := by
  obtain ⟨vd, hvd'⟩ := Option.isSome_iff_exists.mp hvd
  cases hsd : pr.streamingData with
  | none =>
      rw [hasDirectFormat, hsd] at hdf
      exact absurd hdf (by simp)
  | some sd =>
      rw [hasDirectFormat, hsd] at hdf
      simp only [] at hdf
      obtain ⟨f, hfmem, hfurl⟩ := List.any_eq_true.mp hdf
      obtain ⟨u, hu⟩ := Option.isSome_iff_exists.mp hfurl
      have hmem : parse_format_direct f u ∈
          ((sd.adaptiveFormats.getD []).filterMap
              (fun g => g.url.map (fun w => parse_format_direct g w)) ++
            (sd.formats.getD []).filterMap
              (fun g => g.url.map (fun w => parse_format_direct g w))) := by
        rcases List.mem_append.mp hfmem with h1 | h1
        · exact List.mem_append_left _
            (List.mem_filterMap.mpr ⟨f, h1, by rw [hu]; rfl⟩)
        · exact List.mem_append_right _
            (List.mem_filterMap.mpr ⟨f, h1, by rw [hu]; rfl⟩)
      have hokfs : extract_formats_direct pr =
          .ok ((sd.adaptiveFormats.getD []).filterMap
              (fun g => g.url.map (fun w => parse_format_direct g w)) ++
            (sd.formats.getD []).filterMap
              (fun g => g.url.map (fun w => parse_format_direct g w))) := by
        rw [extract_formats_direct, hsd]
        simp only []
        rw [if_neg]
        simp only [List.isEmpty_iff, Bool.not_eq_true]
        exact fun hnil => absurd (hnil ▸ hmem) (List.not_mem_nil _)
      have hmd : extract_metadata_direct pr videoId =
          .ok (assembleMetadata vd videoId
            ((sd.adaptiveFormats.getD []).filterMap
                (fun g => g.url.map (fun w => parse_format_direct g w)) ++
              (sd.formats.getD []).filterMap
                (fun g => g.url.map (fun w => parse_format_direct g w)))) := by
        rw [extract_metadata_direct, hvd', hokfs]
        rfl
      refine ⟨?_, ⟨_, hmd⟩⟩
      rw [extractFromPlayerResponse, hmd]

/-- A streaming-payload entry with a direct URL and a recognized mime
type, used by the C7 theorems. -/
def rfDirect : RawFormat :=
  { url := some "https://e/v?a=1", cipher := none, itag := some 22, quality := none,
    width := none, height := none, fps := none, mimeType := some "video/mp4",
    bitrate := some 100, contentLength := none }

def prDirect : PlayerResponse :=
  { videoDetails := some vdEx,
    streamingData := some { adaptiveFormats := some [rfDirect], formats := none } }

/-- A player response with a direct-URL format but NO video-details
section. -/
def prNoDetails : PlayerResponse :=
  { videoDetails := none,
    streamingData := some { adaptiveFormats := some [rfDirect], formats := none } }

/-- Counterexample to C7 as stated: this player response carries a
format with an already-resolved direct URL, yet the extraction does NOT
return via the direct path — the direct attempt fails on the missing
video-details section, and the call falls through to the player-script
fetch (second component `true`). -/
theorem direct_path_precedence_counterexample :
    hasDirectFormat prNoDetails = true ∧
    (extractFromPlayerResponse appendX appendX prNoDetails "vid").2 = true :=
  ⟨rfl, rfl⟩

/-- Witness for C7 (amended) at a concrete payload with video details
and a direct-URL format. -/
theorem direct_path_precedence_witness :
    extractFromPlayerResponse appendX appendX prDirect "vid" =
      (extract_metadata_direct prDirect "vid", false) ∧
    ∃ m, extract_metadata_direct prDirect "vid" = .ok m :=
  direct_path_precedence appendX appendX prDirect "vid" rfl rfl

end YtDlpNg
